import Mathlib

/-
Verification of the entitlement-stripping core (src/main.rs).

The program's data model is the `plist::Value` type: a property-list value
whose `Dictionary` variant is an insertion-ordered association of string
keys to values.  `plist::Dictionary::remove` has `Vec::swap_remove`-style
semantics: the removed entry is replaced by the *last* entry of the map,
which is then popped, perturbing the order (the repository's own test
`test_remove_provisioned_entitlements` pins this down: the surviving keys
come out in reversed order).  We embed the dictionary as a list of pairs
and translate each function of src/main.rs.
-/

namespace EntitlementStripper

/-- Embedding of `plist::Value`.  The payloads of `real` and `date` are kept
as opaque numeric representations (the program never inspects them); `data`
holds raw bytes as naturals, `integer` is embedded into `Int`. -/
inductive Value where
  | array : List Value → Value
  | dictionary : List (String × Value) → Value
  | boolean : Bool → Value
  | data : List Nat → Value
  | date : Nat → Value
  | real : Nat → Value
  | integer : Int → Value
  | string : String → Value
  | uid : Nat → Value

/-- Embedding of `plist::Dictionary`: an insertion-ordered list of key/value
entries.  A well-formed `plist::Dictionary` has pairwise-distinct keys; in
this embedding that invariant is the explicit hypothesis `keysNodup`. -/
abbrev Dictionary : Type := List (String × Value)

/-- The `plist::Dictionary` well-formedness invariant: keys are pairwise
distinct (a `plist::Dictionary` is a map, so it cannot hold duplicates). -/
abbrev keysNodup (d : Dictionary) : Prop := (d.map Prod.fst).Nodup

/-- Embedding of `plist::Dictionary::contains_key`. -/
def Dictionary.contains_key (d : Dictionary) (k : String) : Bool :=
  d.any (fun p => p.1 == k)

/-- Embedding of `plist::Dictionary::remove` (swap-remove semantics, as in
`IndexMap::swap_remove`): locate the entry with the given key; if present,
overwrite it with the last entry and pop the last entry.  If the key is
absent the dictionary is unchanged. -/
def Dictionary.remove (d : Dictionary) (k : String) : Dictionary :=
  match d.findIdx? (fun p => p.1 == k) with
  | none => d
  | some i =>
    match d.getLast? with
    | none => d
    | some last => (d.set i last).dropLast

/-- The constant `PROVISIONED_ENTITLEMENTS` of src/main.rs, verbatim. -/
def PROVISIONED_ENTITLEMENTS : List String := [
  "beta-reports-active",
  "com.apple.application-identifier",
  "com.apple.developer.aps-environment",
  "com.apple.developer.associated-domains",
  "com.apple.developer.icloud-container-environment",
  "com.apple.developer.icloud-container-identifiers",
  "com.apple.developer.icloud-services",
  "com.apple.developer.team-identifier",
  "com.apple.developer.ubiquity-container-identifiers",
  "com.apple.developer.ubiquity-kvstore-identifier",
  "com.apple.developer.weatherkit",
  "com.apple.security.application-groups",
  "keychain-access-groups"]

/-- Embedding of `plist::Value::as_dictionary` (and of `as_dictionary_mut`,
whose mutation is modelled by explicit state passing below). -/
def Value.as_dictionary : Value → Option Dictionary
  | .dictionary d => some d
  | _ => none

/-- Embedding of `remove_provisioned_entitlements` (src/main.rs:55-63).
The Rust function takes `&mut plist::Value` and returns `Result<()>`; we
model the mutation by returning the result together with the value after
the call (on the error path the value is untouched). -/
def remove_provisioned_entitlements (entitlements : Value) :
    Except String Unit × Value :=
  match entitlements.as_dictionary with
  | none => (.error "Entitlements is not a dictionary", entitlements)
  | some dictionary =>
    (.ok (), .dictionary (List.foldl Dictionary.remove dictionary PROVISIONED_ENTITLEMENTS))

/-- Embedding of `get_provisioned_entitlements` (src/main.rs:65-76): walk
`PROVISIONED_ENTITLEMENTS` in order and keep the keys the dictionary
contains.  The Rust function takes `&plist::Value` (shared borrow), so it
cannot mutate its argument; the embedding accordingly returns only the list. -/
def get_provisioned_entitlements (entitlements : Value) :
    Except String (List String) :=
  match entitlements.as_dictionary with
  | none => .error "Entitlements is not a dictionary"
  | some dictionary =>
    .ok (PROVISIONED_ENTITLEMENTS.filter (fun e => dictionary.contains_key e))

/-- Embedding of `std::process::ExitStatus`: on Unix, `code` is `some n`
for a normal exit with code `n` and `none` for a signal-terminated child. -/
structure ExitStatus where
  code : Option Int
deriving Repr, DecidableEq

/-- Embedding of `ExitStatus::success`: true exactly for exit code 0. -/
def ExitStatus.success (s : ExitStatus) : Bool := s.code == some 0

/-- Embedding of `std::process::Output`: captured status and raw bytes of
the child's standard output and standard error. -/
structure ProcessOutput where
  status : ExitStatus
  stdout : List Nat
  stderr : List Nat

/-- Whether a byte is a UTF-8 continuation byte (10xxxxxx). -/
def utf8Cont (b : Nat) : Bool := 0x80 ≤ b && b ≤ 0xBF

/-- Embedding of `String::from_utf8`: strict UTF-8 validation and decoding
of a byte list into Unicode scalar values (`none` on any ill-formed
sequence: overlong forms, surrogates, out-of-range, truncation). -/
def utf8Decode : List Nat → Option (List Nat)
  | [] => some []
  | b1 :: rest =>
    if b1 ≤ 0x7F then
      (utf8Decode rest).map (fun cs => b1 :: cs)
    else if 0xC2 ≤ b1 && b1 ≤ 0xDF then
      match rest with
      | b2 :: rest2 =>
        if utf8Cont b2 then
          (utf8Decode rest2).map (fun cs => ((b1 - 0xC0) * 0x40 + (b2 - 0x80)) :: cs)
        else none
      | [] => none
    else if 0xE0 ≤ b1 && b1 ≤ 0xEF then
      match rest with
      | b2 :: b3 :: rest3 =>
        if (if b1 = 0xE0 then 0xA0 ≤ b2 && b2 ≤ 0xBF
            else if b1 = 0xED then 0x80 ≤ b2 && b2 ≤ 0x9F
            else utf8Cont b2) && utf8Cont b3 then
          (utf8Decode rest3).map
            (fun cs => ((b1 - 0xE0) * 0x1000 + (b2 - 0x80) * 0x40 + (b3 - 0x80)) :: cs)
        else none
      | _ => none
    else if 0xF0 ≤ b1 && b1 ≤ 0xF4 then
      match rest with
      | b2 :: b3 :: b4 :: rest4 =>
        if (if b1 = 0xF0 then 0x90 ≤ b2 && b2 ≤ 0xBF
            else if b1 = 0xF4 then 0x80 ≤ b2 && b2 ≤ 0x8F
            else utf8Cont b2) && utf8Cont b3 && utf8Cont b4 then
          (utf8Decode rest4).map
            (fun cs => ((b1 - 0xF0) * 0x40000 + (b2 - 0x80) * 0x1000
              + (b3 - 0x80) * 0x40 + (b4 - 0x80)) :: cs)
        else none
      | _ => none
    else none

/-- The failure cases of `get_entitlements` (src/main.rs:88-102), named
after the spec's error taxonomy.  `stdoutNotUtf8`/`stderrNotUtf8` are the
`InvalidProcessOutput` contexts ("codesign stdout/stderr is not valid
UTF-8"); `inspectionFailed` is the `bail!` carrying the exit status and the
two decoded streams; `malformedEntitlements` is the plist-parse failure
context. -/
inductive ExtractError where
  | stdoutNotUtf8 : ExtractError
  | stderrNotUtf8 : ExtractError
  | inspectionFailed : ExitStatus → List Nat → List Nat → ExtractError
  | malformedEntitlements : ExtractError
deriving Repr, DecidableEq

/-- Embedding of `get_entitlements` (src/main.rs:78-104) from the point
where the child process has produced its `Output` (the spawn itself is
outside the model).  `plist::from_bytes` is an external crate function and
is passed in as a parameter `parse_plist`; deserializing into
`plist::Value` succeeds exactly when the bytes are a well-formed property
list of any root type.  Note the control flow of the source: the two
streams are UTF-8-decoded only on the non-success path, and on the success
path the raw stdout bytes go directly to the parser. -/
def get_entitlements (parse_plist : List Nat → Option Value)
    (output : ProcessOutput) : Except ExtractError Value :=
  if output.status.success then
    match parse_plist output.stdout with
    | none => .error .malformedEntitlements
    | some entitlements => .ok entitlements
  else
    match utf8Decode output.stdout with
    | none => .error .stdoutNotUtf8
    | some so =>
      match utf8Decode output.stderr with
      | none => .error .stderrNotUtf8
      | some se => .error (.inspectionFailed output.status so se)

/-- Strict order on characters by Unicode scalar value.  For the ASCII
keys of `PROVISIONED_ENTITLEMENTS` this coincides with Rust's byte order. -/
def charLt (a b : Char) : Bool := a.val < b.val

/-- Lexicographic strict order on character lists. -/
def lexLt : List Char → List Char → Bool
  | [], [] => false
  | [], _ :: _ => true
  | _ :: _, [] => false
  | a :: as, b :: bs =>
    if charLt a b then true
    else if charLt b a then false
    else lexLt as bs

/-- Lexicographic strict order on strings, mirroring `str`'s `Ord` in Rust
(UTF-8 byte order equals scalar-value order). -/
def strLt (a b : String) : Bool := lexLt a.data b.data

/-- The entitlement dictionary of the repository's tests
`test_remove_provisioned_entitlements` and `test_list_provisioned_entitlements`. -/
def exampleEntitlements : Dictionary := [
  ("com.apple.application-identifier", Value.string "AAAAAAAAAA.com.example.example"),
  ("com.apple.developer.aps-environment", Value.string "production"),
  ("com.apple.developer.team-identifier", Value.string "AAAAAAAAAA"),
  ("com.apple.security.automation.apple-events", Value.boolean true),
  ("com.apple.security.device.audio-input", Value.boolean true),
  ("com.apple.security.device.camera", Value.boolean true)]

/-- The dictionary the repository's test expects after stripping
`exampleEntitlements`: note the surviving keys are in reversed order. -/
def exampleStripped : Dictionary := [
  ("com.apple.security.device.camera", Value.boolean true),
  ("com.apple.security.device.audio-input", Value.boolean true),
  ("com.apple.security.automation.apple-events", Value.boolean true)]

/- ---------------------------------------------------------------------
Helper lemmas about swap-removal.
--------------------------------------------------------------------- -/

theorem dropLast_cons_ne {α : Type} (a : α) (l : List α) (h : l ≠ []) :
    (a :: l).dropLast = a :: l.dropLast := by
  cases l with
  | nil => exact absurd rfl h
  | cons b t => rfl

theorem eraseP_eq_eraseIdx_of_findIdx? {α : Type} (l : List α) (p : α → Bool) (i : Nat)
    (h : l.findIdx? p = some i) : l.eraseP p = l.eraseIdx i := by
  induction l generalizing i with
  | nil => simp at h
  | cons a t ih =>
    by_cases hpa : p a
    · rw [List.findIdx?_cons, if_pos hpa] at h
      injection h with h
      subst h
      simp [List.eraseP_cons_of_pos hpa]
    · rw [List.findIdx?_cons, if_neg hpa, List.findIdx?_succ] at h
      rw [Option.map_eq_some'] at h
      obtain ⟨j, hj, hji⟩ := h
      subst hji
      simp only [List.eraseP_cons_of_neg hpa, List.eraseIdx_cons_succ]
      rw [ih j hj]

theorem set_getLast_dropLast_perm {α : Type} (l : List α) (i : Nat) (z : α)
    (hz : l.getLast? = some z) (hi : i < l.length) :
    ((l.set i z).dropLast).Perm (l.eraseIdx i) := by
  induction l generalizing i with
  | nil => simp at hi
  | cons a t ih =>
    cases t with
    | nil =>
      cases i with
      | zero => simp
      | succ j => simp at hi
    | cons b t' =>
      have hz' : (b :: t').getLast? = some z := by
        rwa [List.getLast?_cons_cons] at hz
      cases i with
      | zero =>
        have hBT : (b :: t').dropLast ++ [z] = b :: t' :=
          List.dropLast_append_getLast? z hz'
        rw [List.set_cons_zero, List.eraseIdx_cons_zero,
          dropLast_cons_ne z (b :: t') (by simp)]
        refine ((List.perm_append_singleton z ((b :: t').dropLast)).symm).trans ?_
        rw [hBT]
      | succ j =>
        have hj : j < (b :: t').length := by
          simpa using Nat.lt_of_succ_lt_succ hi
        have hne : (b :: t').set j z ≠ [] := by
          intro hcon
          have := congrArg List.length hcon
          simp at this
        rw [List.set_cons_succ, List.eraseIdx_cons_succ,
          dropLast_cons_ne a _ hne]
        exact (ih j hz' hj).cons a

theorem remove_perm_eraseP (d : Dictionary) (k : String) :
    (d.remove k).Perm (d.eraseP (fun p => p.1 == k)) := by
  cases h : d.findIdx? (fun p => p.1 == k) with
  | none =>
    rw [Dictionary.remove, h, List.eraseP_of_forall_not]
    intro a ha
    simp [List.findIdx?_eq_none_iff.mp h a ha]
  | some i =>
    obtain ⟨hi, -, -⟩ := List.findIdx?_eq_some_iff_getElem.mp h
    have hne : d ≠ [] :=
      List.ne_nil_of_length_pos (Nat.lt_of_le_of_lt (Nat.zero_le i) hi)
    cases hg : d.getLast? with
    | none => exact absurd (List.getLast?_eq_none_iff.mp hg) hne
    | some z =>
      rw [Dictionary.remove, h, hg, eraseP_eq_eraseIdx_of_findIdx? d _ i h]
      exact set_getLast_dropLast_perm d i z hg hi

theorem eraseP_eq_filter_of_keysNodup (d : Dictionary) (k : String) (h : keysNodup d) :
    d.eraseP (fun p => p.1 == k) = d.filter (fun p => !(p.1 == k)) := by
  induction d with
  | nil => rfl
  | cons a t ih =>
    rw [keysNodup, List.map_cons, List.nodup_cons] at h
    by_cases hk : a.1 = k
    · rw [List.eraseP_cons_of_pos (by simp [hk]), List.filter_cons_of_neg (by simp [hk])]
      symm
      apply List.filter_eq_self.mpr
      intro p hp
      have hpk : p.1 ≠ k := by
        intro hcon
        exact h.1 (hk ▸ hcon ▸ List.mem_map_of_mem Prod.fst hp)
      simp [hpk]
    · rw [List.eraseP_cons_of_neg (by simp [hk]), List.filter_cons_of_pos (by simp [hk])]
      rw [ih h.2]

theorem remove_keysNodup (d : Dictionary) (k : String) (h : keysNodup d) :
    keysNodup (d.remove k) := by
  have hperm := (remove_perm_eraseP d k).map Prod.fst
  have hsub := (List.eraseP_sublist (p := fun p => p.1 == k) d).map Prod.fst
  exact hperm.nodup_iff.mpr ((h : (d.map Prod.fst).Nodup).sublist hsub)

theorem foldl_remove_perm (ks : List String) (d : Dictionary) (h : keysNodup d) :
    (List.foldl Dictionary.remove d ks).Perm
      (d.filter (fun p => !(ks.contains p.1))) := by
  induction ks generalizing d with
  | nil => simp
  | cons k ks ih =>
    rw [List.foldl_cons]
    have h2 := ih (d.remove k) (remove_keysNodup d k h)
    have h3 : ((d.remove k).filter (fun p => !(ks.contains p.1))).Perm
        ((d.filter (fun p => !(p.1 == k))).filter (fun p => !(ks.contains p.1))) := by
      have hp := remove_perm_eraseP d k
      rw [eraseP_eq_filter_of_keysNodup d k h] at hp
      exact hp.filter _
    refine h2.trans (h3.trans ?_)
    have heq : (d.filter (fun p => !(p.1 == k))).filter (fun p => !(ks.contains p.1)) =
        d.filter (fun p => !((k :: ks).contains p.1)) := by
      rw [List.filter_filter]
      refine List.filter_congr ?_
      intro p hp
      simp only [List.contains_cons, Bool.not_or]
      rw [Bool.and_comm]
    exact heq ▸ List.Perm.refl _

theorem contains_key_eq_false_iff (d : Dictionary) (k : String) :
    d.contains_key k = false ↔ ∀ p ∈ d, p.1 ≠ k := by
  rw [Dictionary.contains_key, List.any_eq_false]
  constructor
  · intro h p hp
    simpa using h p hp
  · intro h p hp
    simpa using h p hp

theorem remove_eq_self_of_not_contains (d : Dictionary) (k : String)
    (h : d.contains_key k = false) : d.remove k = d := by
  have hidx : d.findIdx? (fun p => p.1 == k) = none := by
    rw [List.findIdx?_eq_none_iff]
    intro p hp
    simpa using (contains_key_eq_false_iff d k).mp h p hp
  rw [Dictionary.remove, hidx]

theorem foldl_remove_id (ks : List String) (d : Dictionary)
    (h : ∀ k ∈ ks, d.contains_key k = false) :
    List.foldl Dictionary.remove d ks = d := by
  induction ks with
  | nil => rfl
  | cons k ks ih =>
    rw [List.foldl_cons, remove_eq_self_of_not_contains d k (h k (List.mem_cons_self k ks))]
    exact ih (fun q hq => h q (List.mem_cons_of_mem _ hq))

theorem strip_contains_key (d : Dictionary) (h : keysNodup d) (k : String)
    (hk : k ∈ PROVISIONED_ENTITLEMENTS) :
    (List.foldl Dictionary.remove d PROVISIONED_ENTITLEMENTS).contains_key k = false := by
  rw [contains_key_eq_false_iff]
  intro p hp hpk
  have hmem := ((foldl_remove_perm PROVISIONED_ENTITLEMENTS d h).mem_iff).mp hp
  have := (List.mem_filter.mp hmem).2
  rw [hpk] at this
  simp at this
  exact this hk

/- ---------------------------------------------------------------------
Claim theorems.
--------------------------------------------------------------------- -/

/-- C1 (counterexample): on the repository's own test dictionary, `strip`
does not preserve the relative order of the surviving keys.  The surviving
keys come out as [camera, audio-input, apple-events], the exact reverse of
their relative order in the input (which an order-preserving filter would
produce), because `plist::Dictionary::remove` swaps the last entry into the
removed slot. -/
theorem strip_order_counterexample :
    (remove_provisioned_entitlements (Value.dictionary exampleEntitlements)).2 =
      Value.dictionary exampleStripped ∧
    exampleStripped.map Prod.fst =
      ["com.apple.security.device.camera",
       "com.apple.security.device.audio-input",
       "com.apple.security.automation.apple-events"] ∧
    (exampleEntitlements.filter
        (fun p => !(PROVISIONED_ENTITLEMENTS.contains p.1))).map Prod.fst =
      ["com.apple.security.automation.apple-events",
       "com.apple.security.device.audio-input",
       "com.apple.security.device.camera"] ∧
    exampleStripped.map Prod.fst ≠
      (exampleEntitlements.filter
        (fun p => !(PROVISIONED_ENTITLEMENTS.contains p.1))).map Prod.fst :=
  ⟨rfl, rfl, by decide, by decide⟩

/-- C1 (amended): for every entitlement dictionary (distinct keys), `strip`
succeeds and its result holds exactly the non-provisioned entries of the
input with their original values — the same entries as an order-preserving
filter, but only up to permutation; the surviving keys' relative order is
not preserved in general. -/
theorem strip_preserves_nonprovisioned_upto_perm (d : Dictionary) (h : keysNodup d) :
    remove_provisioned_entitlements (Value.dictionary d) =
      (Except.ok (),
       Value.dictionary (List.foldl Dictionary.remove d PROVISIONED_ENTITLEMENTS)) ∧
    (List.foldl Dictionary.remove d PROVISIONED_ENTITLEMENTS).Perm
      (d.filter (fun p => !(PROVISIONED_ENTITLEMENTS.contains p.1))) ∧
    ∀ p : String × Value,
      p ∈ List.foldl Dictionary.remove d PROVISIONED_ENTITLEMENTS ↔
        (p ∈ d ∧ p.1 ∉ PROVISIONED_ENTITLEMENTS) := by
  refine ⟨rfl, foldl_remove_perm _ d h, ?_⟩
  intro p
  rw [(foldl_remove_perm _ d h).mem_iff, List.mem_filter]
  simp

theorem strip_preserves_nonprovisioned_upto_perm_witness :
    keysNodup exampleEntitlements ∧
    (remove_provisioned_entitlements (Value.dictionary exampleEntitlements) =
      (Except.ok (),
       Value.dictionary
         (List.foldl Dictionary.remove exampleEntitlements PROVISIONED_ENTITLEMENTS)) ∧
    (List.foldl Dictionary.remove exampleEntitlements PROVISIONED_ENTITLEMENTS).Perm
      (exampleEntitlements.filter (fun p => !(PROVISIONED_ENTITLEMENTS.contains p.1))) ∧
    ∀ p : String × Value,
      p ∈ List.foldl Dictionary.remove exampleEntitlements PROVISIONED_ENTITLEMENTS ↔
        (p ∈ exampleEntitlements ∧ p.1 ∉ PROVISIONED_ENTITLEMENTS)) :=
  ⟨by decide, strip_preserves_nonprovisioned_upto_perm exampleEntitlements (by decide)⟩

/-- C2: `list_present` returns exactly the intersection of the dictionary's
keys with the Provisioned Entitlement Key Set, in that key set's fixed
lexicographic order, independently of the dictionary's own key order (the
Rust function takes a shared borrow, so it cannot mutate its argument, and
the embedding accordingly returns only the list). -/
theorem list_present_spec (d : Dictionary) :
    ∃ r : List String,
      get_provisioned_entitlements (Value.dictionary d) = Except.ok r ∧
      (∀ k : String, k ∈ r ↔ (k ∈ PROVISIONED_ENTITLEMENTS ∧ d.contains_key k = true)) ∧
      List.Pairwise (fun a b => strLt a b = true) r ∧
      (∀ d' : Dictionary, d.Perm d' →
        get_provisioned_entitlements (Value.dictionary d') = Except.ok r) := by
  refine ⟨PROVISIONED_ENTITLEMENTS.filter (fun e => d.contains_key e), rfl, ?_, ?_, ?_⟩
  · intro k
    rw [List.mem_filter]
  · have hsorted : List.Pairwise (fun a b => strLt a b = true) PROVISIONED_ENTITLEMENTS :=
      by decide
    exact hsorted.sublist (List.filter_sublist _)
  · intro d' hperm
    have hck : ∀ k ∈ PROVISIONED_ENTITLEMENTS, d'.contains_key k = d.contains_key k := by
      intro k _
      rw [Dictionary.contains_key, Dictionary.contains_key]
      cases hd : d'.any (fun p => p.1 == k) with
      | true =>
        obtain ⟨p, hp, hb⟩ := List.any_eq_true.mp hd
        exact (List.any_eq_true.mpr ⟨p, hperm.mem_iff.mpr hp, hb⟩).symm
      | false =>
        cases hd2 : d.any (fun p => p.1 == k) with
        | false => rfl
        | true =>
          obtain ⟨p, hp, hb⟩ := List.any_eq_true.mp hd2
          rw [List.any_eq_false] at hd
          exact absurd hb (by simpa using hd p (hperm.mem_iff.mp hp))
    exact congrArg Except.ok (List.filter_congr hck)

theorem list_present_spec_witness :
    exampleEntitlements.Perm exampleEntitlements.reverse ∧
    get_provisioned_entitlements (Value.dictionary exampleEntitlements.reverse) =
      Except.ok ["com.apple.application-identifier",
                 "com.apple.developer.aps-environment",
                 "com.apple.developer.team-identifier"] := by
  have hp : exampleEntitlements.Perm exampleEntitlements.reverse :=
    (List.reverse_perm exampleEntitlements).symm
  obtain ⟨r, h1, -, -, h4⟩ := list_present_spec exampleEntitlements
  have hr0 : get_provisioned_entitlements (Value.dictionary exampleEntitlements) =
      Except.ok ["com.apple.application-identifier",
                 "com.apple.developer.aps-environment",
                 "com.apple.developer.team-identifier"] := rfl
  rw [h1] at hr0
  injection hr0 with hr
  subst hr
  exact ⟨hp, h4 _ hp⟩

/-- C3: for every entitlement dictionary (distinct keys) and every key of
the Provisioned Entitlement Key Set, stripping succeeds and the resulting
dictionary does not contain the key, whether or not it was present before
(absence of a key is not an error: the result is `Ok` regardless). -/
theorem strip_removes_provisioned (d : Dictionary) (h : keysNodup d)
    (k : String) (hk : k ∈ PROVISIONED_ENTITLEMENTS) :
    (remove_provisioned_entitlements (Value.dictionary d)).1 = Except.ok () ∧
    ∃ e : Dictionary,
      (remove_provisioned_entitlements (Value.dictionary d)).2 = Value.dictionary e ∧
      e.contains_key k = false :=
  ⟨rfl, List.foldl Dictionary.remove d PROVISIONED_ENTITLEMENTS, rfl,
    strip_contains_key d h k hk⟩

theorem strip_removes_provisioned_witness :
    keysNodup exampleEntitlements ∧
    "beta-reports-active" ∈ PROVISIONED_ENTITLEMENTS ∧
    ((remove_provisioned_entitlements (Value.dictionary exampleEntitlements)).1 =
      Except.ok () ∧
    ∃ e : Dictionary,
      (remove_provisioned_entitlements (Value.dictionary exampleEntitlements)).2 =
        Value.dictionary e ∧
      e.contains_key "beta-reports-active" = false) :=
  ⟨by decide, by decide,
    strip_removes_provisioned exampleEntitlements (by decide) "beta-reports-active" (by decide)⟩

/-- C4: `strip` is idempotent on every entitlement dictionary (distinct
keys): applying it to its own output returns a structurally identical
result, including identical key order. -/
theorem strip_idempotent (d : Dictionary) (h : keysNodup d) :
    remove_provisioned_entitlements
        (remove_provisioned_entitlements (Value.dictionary d)).2 =
      remove_provisioned_entitlements (Value.dictionary d) := by
  have hid : List.foldl Dictionary.remove
      (List.foldl Dictionary.remove d PROVISIONED_ENTITLEMENTS) PROVISIONED_ENTITLEMENTS =
      List.foldl Dictionary.remove d PROVISIONED_ENTITLEMENTS :=
    foldl_remove_id _ _ (fun k hk => strip_contains_key d h k hk)
  show (Except.ok (),
      Value.dictionary (List.foldl Dictionary.remove
        (List.foldl Dictionary.remove d PROVISIONED_ENTITLEMENTS)
        PROVISIONED_ENTITLEMENTS)) =
    (Except.ok (),
      Value.dictionary (List.foldl Dictionary.remove d PROVISIONED_ENTITLEMENTS))
  rw [hid]

theorem strip_idempotent_witness :
    keysNodup exampleEntitlements ∧
    remove_provisioned_entitlements
        (remove_provisioned_entitlements (Value.dictionary exampleEntitlements)).2 =
      remove_provisioned_entitlements (Value.dictionary exampleEntitlements) :=
  ⟨by decide, strip_idempotent exampleEntitlements (by decide)⟩

/-- C5 (counterexample): the Entitlement Extractor performs no
dictionary-root check.  With exit status 0 and a standard output that
parses to an array-rooted property list, `get_entitlements` returns
success carrying the non-dictionary value, contradicting the claim that it
fails with `MalformedEntitlements` and never returns success for a
non-dictionary root. -/
theorem extract_nondict_root_counterexample :
    get_entitlements (fun _ => some (Value.array []))
        ⟨⟨some 0⟩, [], []⟩ =
      Except.ok (Value.array []) ∧
    (Value.array []).as_dictionary = none :=
  ⟨rfl, rfl⟩

/-- C5 (amended): when the inspector exits 0 and its stdout parses as any
property-list value, `get_entitlements` returns that value successfully,
including non-dictionary roots; `MalformedEntitlements` arises only when
parsing fails.  The non-dictionary case is instead rejected by both Filter
operations with the "not a dictionary" error, so no Strip or DryRun
pipeline proceeds past a non-dictionary root. -/
theorem extract_nondict_root_amended (parse_plist : List Nat → Option Value)
    (output : ProcessOutput) (v : Value)
    (hs : output.status.success = true) (hp : parse_plist output.stdout = some v) :
    get_entitlements parse_plist output = Except.ok v ∧
    (v.as_dictionary = none →
      (remove_provisioned_entitlements v).1 =
        Except.error "Entitlements is not a dictionary" ∧
      get_provisioned_entitlements v =
        Except.error "Entitlements is not a dictionary") := by
  refine ⟨by simp [get_entitlements, hs, hp], ?_⟩
  intro hv
  exact ⟨by simp [remove_provisioned_entitlements, hv],
    by simp [get_provisioned_entitlements, hv]⟩

theorem extract_nondict_root_amended_witness :
    (⟨⟨some 0⟩, [], []⟩ : ProcessOutput).status.success = true ∧
    (fun _ => some (Value.array [])) (([] : List Nat)) = some (Value.array []) ∧
    (get_entitlements (fun _ => some (Value.array [])) ⟨⟨some 0⟩, [], []⟩ =
      Except.ok (Value.array []) ∧
    ((Value.array []).as_dictionary = none →
      (remove_provisioned_entitlements (Value.array [])).1 =
        Except.error "Entitlements is not a dictionary" ∧
      get_provisioned_entitlements (Value.array []) =
        Except.error "Entitlements is not a dictionary")) :=
  ⟨rfl, rfl, extract_nondict_root_amended (fun _ => some (Value.array []))
    ⟨⟨some 0⟩, [], []⟩ (Value.array []) rfl rfl⟩

/-- C6 (counterexample): with exit status 0, non-UTF-8 bytes on both
standard output and standard error do not make the Extractor fail: the
success path never decodes either stream (stdout's raw bytes go straight
to the plist parser — a binary property list is not UTF-8 text), so
`get_entitlements` succeeds, contradicting the claim that non-UTF-8
process output fails hard even when the exit status indicates success. -/
theorem extract_utf8_success_counterexample :
    utf8Decode [0xFF] = none ∧
    (⟨some 0⟩ : ExitStatus).success = true ∧
    get_entitlements (fun _ => some (Value.dictionary []))
        ⟨⟨some 0⟩, [0xFF], [0xFF]⟩ =
      Except.ok (Value.dictionary []) :=
  ⟨rfl, rfl, rfl⟩

/-- C6 (amended): UTF-8 validation of the inspector's streams happens only
on the failure path.  When the exit status indicates success, the result
of `get_entitlements` is determined solely by parsing the raw stdout
bytes; neither stream is UTF-8-decoded, so invalid UTF-8 alone never
causes a failure there. -/
theorem extract_success_no_utf8_check (parse_plist : List Nat → Option Value)
    (output : ProcessOutput) (hs : output.status.success = true) :
    get_entitlements parse_plist output =
      (match parse_plist output.stdout with
       | none => Except.error ExtractError.malformedEntitlements
       | some v => Except.ok v) := by
  simp only [get_entitlements, hs, if_true]

theorem extract_success_no_utf8_check_witness :
    (⟨⟨some 0⟩, [0xFF], [0xFF]⟩ : ProcessOutput).status.success = true ∧
    get_entitlements (fun _ => some (Value.dictionary []))
        ⟨⟨some 0⟩, [0xFF], [0xFF]⟩ =
      (match (fun _ => some (Value.dictionary [])) ([0xFF] : List Nat) with
       | none => Except.error ExtractError.malformedEntitlements
       | some v => Except.ok v) :=
  ⟨rfl, extract_success_no_utf8_check (fun _ => some (Value.dictionary []))
    ⟨⟨some 0⟩, [0xFF], [0xFF]⟩ rfl⟩

/-- C7: on a non-zero exit status, if both streams decode as UTF-8 text the
Extractor fails with the inspection failure carrying the exit status and
both decoded streams; if stdout is not valid text it fails with the
distinct stdout-decoding failure, and if stdout decodes but stderr does
not, with the stderr-decoding failure. -/
theorem extract_failure_spec (parse_plist : List Nat → Option Value)
    (output : ProcessOutput) (hs : output.status.success = false) :
    (∀ so se, utf8Decode output.stdout = some so → utf8Decode output.stderr = some se →
      get_entitlements parse_plist output =
        Except.error (ExtractError.inspectionFailed output.status so se)) ∧
    (utf8Decode output.stdout = none →
      get_entitlements parse_plist output = Except.error ExtractError.stdoutNotUtf8) ∧
    (∀ so, utf8Decode output.stdout = some so → utf8Decode output.stderr = none →
      get_entitlements parse_plist output = Except.error ExtractError.stderrNotUtf8) := by
  refine ⟨?_, ?_, ?_⟩
  · intro so se h1 h2
    simp [get_entitlements, hs, h1, h2]
  · intro h1
    simp [get_entitlements, hs, h1]
  · intro so h1 h2
    simp [get_entitlements, hs, h1, h2]

theorem extract_failure_spec_witness :
    (⟨⟨some 1⟩, [104, 105], [0xFF]⟩ : ProcessOutput).status.success = false ∧
    utf8Decode [104, 105] = some [104, 105] ∧
    utf8Decode [0xFF] = none ∧
    get_entitlements (fun _ => none) ⟨⟨some 1⟩, [104, 105], [0xFF]⟩ =
      Except.error ExtractError.stderrNotUtf8 :=
  ⟨rfl, rfl, rfl,
    (extract_failure_spec (fun _ => none) ⟨⟨some 1⟩, [104, 105], [0xFF]⟩ rfl).2.2
      [104, 105] rfl rfl⟩

/-- C8: on a property-list value whose root is not a dictionary, both
Filter operations fail with the "not a dictionary" error, and the strip
operation leaves the value unchanged. -/
theorem not_a_dictionary_spec (v : Value) (h : v.as_dictionary = none) :
    (remove_provisioned_entitlements v).1 =
      Except.error "Entitlements is not a dictionary" ∧
    (remove_provisioned_entitlements v).2 = v ∧
    get_provisioned_entitlements v =
      Except.error "Entitlements is not a dictionary" := by
  refine ⟨?_, ?_, ?_⟩ <;>
    simp [remove_provisioned_entitlements, get_provisioned_entitlements, h]

theorem not_a_dictionary_spec_witness :
    (Value.array []).as_dictionary = none ∧
    ((remove_provisioned_entitlements (Value.array [])).1 =
      Except.error "Entitlements is not a dictionary" ∧
    (remove_provisioned_entitlements (Value.array [])).2 = Value.array [] ∧
    get_provisioned_entitlements (Value.array []) =
      Except.error "Entitlements is not a dictionary") :=
  ⟨rfl, not_a_dictionary_spec (Value.array []) rfl⟩

/-- C9: the `PROVISIONED_ENTITLEMENTS` constant is strictly sorted in
lexicographic order (hence in particular contains no duplicate keys, which
the second conjunct also states directly). -/
theorem provisioned_entitlements_sorted_nodup :
    List.Pairwise (fun a b => strLt a b = true) PROVISIONED_ENTITLEMENTS ∧
    PROVISIONED_ENTITLEMENTS.Nodup :=
  ⟨by decide, by decide⟩

/-- C10: stripping an entitlement dictionary (distinct keys) succeeds, and
listing the provisioned entitlements of the stripped result succeeds with
the empty list. -/
theorem strip_then_list_empty (d : Dictionary) (h : keysNodup d) :
    ∃ e : Dictionary,
      remove_provisioned_entitlements (Value.dictionary d) =
        (Except.ok (), Value.dictionary e) ∧
      get_provisioned_entitlements (Value.dictionary e) = Except.ok [] := by
  refine ⟨List.foldl Dictionary.remove d PROVISIONED_ENTITLEMENTS, rfl, ?_⟩
  have hnil : PROVISIONED_ENTITLEMENTS.filter
      (fun e => (List.foldl Dictionary.remove d PROVISIONED_ENTITLEMENTS).contains_key e) =
      [] := by
    rw [List.filter_eq_nil_iff]
    intro k hk
    simp [strip_contains_key d h k hk]
  exact congrArg Except.ok hnil

theorem strip_then_list_empty_witness :
    keysNodup exampleEntitlements ∧
    ∃ e : Dictionary,
      remove_provisioned_entitlements (Value.dictionary exampleEntitlements) =
        (Except.ok (), Value.dictionary e) ∧
      get_provisioned_entitlements (Value.dictionary e) = Except.ok [] :=
  ⟨by decide, strip_then_list_empty exampleEntitlements (by decide)⟩

end EntitlementStripper
